import Mathlib

/-!
Verification of the persistence and rank-tracking core of the support-bot
repository (src/common/database.py, src/common/rank_database.py,
src/common/rank.py, src/discord_bot/cogs/rank.py).

The Python source is shallowly embedded: dictionaries become structures with
the fields the core reads and writes, TinyDB tables become lists of
(doc_id, record) pairs with a fresh-id counter, stateful methods become
explicit state-passing functions, and `raise` becomes `Except.error`.
Randomness (`random.randint`) and wall-clock time (`time.time()`) are
externalized as parameters.  Identifiers (`user_id`, `community_id`,
Discord guild ids) are modelled as naturals; only equality on them is ever
used by the source, so this loses no generality for the verified claims.
-/

namespace SupportBot

/-! ### Level formula (src/common/rank.py, RankSystem) -/

/-- Embedding of `RankSystem.calculate_level` on its intended (non-negative)
domain: `math.floor(math.sqrt(xp / 100))`.  For a natural `xp`,
`Nat.sqrt (xp / 100)` equals the real-valued `⌊√(xp / 100)⌋` because flooring
the radicand first does not change the floored square root.  The negative-xp
branch (where `math.sqrt` raises) is modelled by `calculate_level_checked`. -/
def calculate_level (xp : Nat) : Nat :=
  Nat.sqrt (xp / 100)

/-- Embedding of `RankSystem.calculate_xp_for_level`: `level * level * 100`. -/
def calculate_xp_for_level (level : Nat) : Nat :=
  level * level * 100

/-- Embedding of `RankSystem.calculate_level` over all integer inputs:
Python's `math.sqrt` raises a math domain error (`ValueError`) when the
argument is negative, so the result is `Except`. -/
def calculate_level_checked (xp : Int) : Except String Nat :=
  if xp < 0 then Except.error "math domain error"
  else Except.ok (calculate_level xp.toNat)

/-! ### C2: the level functions are mutually inverse at exact boundaries -/

/-- C2: for every integer n in [0, 10000],
`calculate_level (calculate_xp_for_level n) = n`: the level functions are
mutually inverse at exact level boundaries, with integer-safe floor
semantics. -/
theorem level_xpForLevel_inverse (n : Nat) (h : n ≤ 10000) :
    calculate_level (calculate_xp_for_level n) = n := by
  unfold calculate_level calculate_xp_for_level
  rw [Nat.mul_div_cancel (n * n) (by norm_num : 0 < 100)]
  rw [← Nat.pow_two n]
  exact Nat.sqrt_eq' n

/-- Witness for C2 at n = 137. -/
theorem level_xpForLevel_inverse_witness :
    137 ≤ 10000 ∧ calculate_level (calculate_xp_for_level 137) = 137 :=
  ⟨by norm_num, level_xpForLevel_inverse 137 (by norm_num)⟩

/-! ### Data model (src/common/rank_database.py)

A TinyDB user document, restricted to the fields read or written by the
rank core.  `username = none` models the absence of the `'username'` key
(checked by `'username' not in user_data` in `get_rank_data`).  The
timestamp strings `mee6_import_date` / `reddit_import_date` are write-only
payload and are not modelled. -/

structure UserRecord where
  user_id : Nat
  community_id : Nat
  xp : Int
  message_count : Nat
  last_activity : Int
  username : Option String := none
  submission_count : Nat := 0
  comment_count : Nat := 0
deriving Repr, DecidableEq

/-- A TinyDB table: documents in insertion order, each carrying its
store-assigned `doc_id`, together with the next fresh id (TinyDB assigns
consecutive integer ids starting at 1). -/
structure Table where
  docs : List (Nat × UserRecord)
  nextId : Nat
deriving Repr, DecidableEq

def Table.empty : Table := ⟨[], 1⟩

/-- TinyDB `table.insert`: appends the document and returns its doc_id. -/
def Table.insert (t : Table) (r : UserRecord) : Table × Nat :=
  (⟨t.docs ++ [(t.nextId, r)], t.nextId + 1⟩, t.nextId)

/-- TinyDB `table.update(data, doc_ids=[i])`: replaces the document stored
under doc_id `i`.  (TinyDB merges `data` into the stored document; every
call site in the rank core supplies all modelled fields except those it
deliberately leaves untouched, which the call-site embeddings preserve
explicitly.) -/
def Table.updateDoc (t : Table) (i : Nat) (r : UserRecord) : Table :=
  ⟨t.docs.map (fun p => if p.1 = i then (p.1, r) else p), t.nextId⟩

/-- Well-formedness maintained by TinyDB: doc_ids are distinct and below the
fresh-id counter. -/
def Table.WF (t : Table) : Prop :=
  (t.docs.map Prod.fst).Nodup ∧ ∀ p ∈ t.docs, p.1 < t.nextId

instance (t : Table) : Decidable t.WF := by
  unfold Table.WF; infer_instance

/-- The composite-key scan shared by `get_user_data` / `update_user_data`:
`item.get('user_id') == user_id and item.get('community_id') == community_id`,
first match in table order. -/
def findUser (docs : List (Nat × UserRecord)) (community_id user_id : Nat) :
    Option (Nat × UserRecord) :=
  docs.find? (fun p => p.2.user_id = user_id && p.2.community_id = community_id)

/-- Embedding of `RankDatabase.get_user_data` (per-table body, after the
platform check).  The create branch inserts the zero-valued record and
re-reads it by its fresh doc_id; with TinyDB's unique doc_ids that read
returns exactly the inserted document, which the embedding returns
directly. -/
def get_user_data (t : Table) (community_id user_id : Nat)
    (create_if_not_exists : Bool) : Option UserRecord × Table :=
  match findUser t.docs community_id user_id with
  | some p => (some p.2, t)
  | none =>
    if create_if_not_exists then
      let r : UserRecord :=
        { user_id := user_id, community_id := community_id,
          xp := 0, message_count := 0, last_activity := 0 }
      let (t', _) := t.insert r
      (some r, t')
    else (none, t)

/-- Embedding of `RankDatabase.update_user_data` (per-table body, after the
platform check): forces `data['user_id']` and `data['community_id']` to the
call arguments, then updates the first composite-key match in place or
inserts a new document.  The returned record is the re-read of the written
doc_id, i.e. the forced data. -/
def update_user_data (t : Table) (community_id user_id : Nat)
    (data : UserRecord) : UserRecord × Table :=
  let data' := { data with user_id := user_id, community_id := community_id }
  match findUser t.docs community_id user_id with
  | some p => (data', t.updateDoc p.1 data')
  | none => (data', (t.insert data').1)

/-! ### Leaderboard (src/common/rank_database.py, get_leaderboard)

Python sorts with `sorted(community_users, key=lambda x: x.get('xp', 0),
reverse=True)`: a stable sort, descending by xp, ties kept in scan order.
A stable sort for a total preorder is uniquely determined by being a
permutation, sorted, and stable, so it is embedded as Mathlib's
`List.insertionSort` under the relation "xp at least as large", which
places each element after all strictly-larger-xp elements and before
later-scanned elements of equal xp — exactly Python's result.  Sortedness,
permutation and stability are proved below rather than assumed. -/

/-- Descending-by-xp comparison used by the leaderboard sort. -/
def xpGe (a b : UserRecord) : Prop := b.xp ≤ a.xp

instance : DecidableRel xpGe := fun a b => by unfold xpGe; infer_instance

instance : IsTotal UserRecord xpGe :=
  ⟨fun a b => le_total b.xp a.xp⟩

instance : IsTrans UserRecord xpGe :=
  ⟨fun _ _ _ hab hbc => le_trans hbc hab⟩

/-- Python list slice `l[a : b]` for clamped non-negative bounds. -/
def pySlice (l : List α) (a b : Nat) : List α :=
  (l.take b).drop a

/-- The community filter of `get_leaderboard`: table scan keeping documents
whose `community_id` matches, in scan (insertion) order. -/
def communityUsers (t : Table) (community_id : Nat) : List UserRecord :=
  (t.docs.map Prod.snd).filter (fun r => r.community_id = community_id)

/-- Embedding of `RankDatabase.get_leaderboard` (per-table body, after the
platform check): filter by community, stable-sort descending by xp, then
apply the offset/limit window exactly as the source computes it. -/
def get_leaderboard (t : Table) (community_id : Nat) (limit offset : Nat) :
    List UserRecord :=
  let sorted_users := (communityUsers t community_id).insertionSort xpGe
  let end_index :=
    if offset + limit > sorted_users.length then sorted_users.length
    else offset + limit
  if offset ≥ sorted_users.length then []
  else pySlice sorted_users offset end_index

/-! ### C3 lemmas -/

/-- The source's offset/limit window (clamp, early-return-empty, slice)
collapses to drop-then-take. -/
lemma get_leaderboard_eq_drop_take (t : Table) (c L O : Nat) :
    get_leaderboard t c L O
      = ((((communityUsers t c).insertionSort xpGe).drop O).take L) := by
  unfold get_leaderboard pySlice
  set l := (communityUsers t c).insertionSort xpGe with hl
  by_cases hO : O ≥ l.length
  · simp only [if_pos hO]
    rw [List.drop_eq_nil_of_le hO, List.take_nil]
  · simp only [if_neg hO]
    by_cases hE : O + L > l.length
    · simp only [if_pos hE]
      rw [List.take_length]
      have hlen : (l.drop O).length = l.length - O := List.length_drop O l
      exact (List.take_of_length_le (by omega)).symm
    · simp only [if_neg hE]
      rw [List.drop_take]
      congr 1
      omega

lemma filter_orderedInsert_of_eq (v : Int) (x : UserRecord) (hx : x.xp = v) :
    ∀ l : List UserRecord,
      (l.orderedInsert xpGe x).filter (fun r => decide (r.xp = v))
        = x :: l.filter (fun r => decide (r.xp = v))
  | [] => by simp [List.orderedInsert, hx]
  | y :: ys => by
    by_cases h : xpGe x y
    · simp [List.orderedInsert, if_pos h, hx]
    · have hy : ¬ (y.xp = v) := by
        unfold xpGe at h
        intro hv; exact h (by omega)
      simp only [List.orderedInsert, if_neg h, List.filter_cons]
      rw [if_neg (by simpa using hy), if_neg (by simpa using hy),
        filter_orderedInsert_of_eq v x hx ys]

lemma filter_orderedInsert_of_ne (v : Int) (x : UserRecord) (hx : ¬ (x.xp = v)) :
    ∀ l : List UserRecord,
      (l.orderedInsert xpGe x).filter (fun r => decide (r.xp = v))
        = l.filter (fun r => decide (r.xp = v))
  | [] => by simp [List.orderedInsert, hx]
  | y :: ys => by
    by_cases h : xpGe x y
    · simp [List.orderedInsert, if_pos h, hx]
    · simp only [List.orderedInsert, if_neg h, List.filter_cons]
      rw [filter_orderedInsert_of_ne v x hx ys]

/-- Stability of the leaderboard sort: records of any fixed xp value keep
their scan order. -/
lemma filter_insertionSort_xp (v : Int) :
    ∀ l : List UserRecord,
      (l.insertionSort xpGe).filter (fun r => decide (r.xp = v))
        = l.filter (fun r => decide (r.xp = v))
  | [] => rfl
  | x :: xs => by
    simp only [List.insertionSort, List.filter_cons]
    by_cases hx : x.xp = v
    · rw [filter_orderedInsert_of_eq v x hx, filter_insertionSort_xp v xs,
        if_pos (by simpa using hx)]
    · rw [filter_orderedInsert_of_ne v x hx, filter_insertionSort_xp v xs,
        if_neg (by simpa using hx)]

/-- Concatenating drop/take windows of width L covers the list exactly. -/
lemma join_window_chunks :
    ∀ (k : Nat) (l : List α) (L : Nat), l.length ≤ k * L →
      ((List.range k).map (fun i => (l.drop (i * L)).take L)).flatten = l
  | 0, l, L, h => by
    have : l = [] := List.eq_nil_of_length_eq_zero (by omega)
    simp [this]
  | k + 1, l, L, h => by
    have h' : l.length ≤ k * L + L := by
      rw [Nat.succ_mul] at h
      exact h
    rw [List.range_succ_eq_map, List.map_cons, List.flatten_cons, List.map_map]
    have hstep : ∀ i : Nat,
        (l.drop (Nat.succ i * L)).take L = ((l.drop L).drop (i * L)).take L := by
      intro i
      rw [List.drop_drop, Nat.succ_mul, Nat.add_comm]
    have hrw : (List.range k).map ((fun i => (l.drop (i * L)).take L) ∘ Nat.succ)
        = (List.range k).map (fun i => ((l.drop L).drop (i * L)).take L) := by
      apply List.map_congr_left
      intro i _
      simp only [Function.comp]
      rw [← hstep i]
    rw [hrw, join_window_chunks k (l.drop L) L
        (by rw [List.length_drop]; omega)]
    simp [List.take_append_drop]

/-- C3: `get_leaderboard` returns the community-filtered records stably
sorted descending by xp (ties in scan order), sliced to the window
[offset, offset+limit); it is empty when the offset is at or beyond the
number of matching records; and concatenating fixed-width pages over
offsets 0, L, 2L, ... reproduces the full sorted list with no duplicates
or gaps. -/
theorem get_leaderboard_spec (t : Table) (c L O : Nat) :
    get_leaderboard t c L O
      = (((communityUsers t c).insertionSort xpGe).drop O).take L ∧
    List.Sorted xpGe ((communityUsers t c).insertionSort xpGe) ∧
    List.Perm ((communityUsers t c).insertionSort xpGe) (communityUsers t c) ∧
    (∀ v : Int, ((communityUsers t c).insertionSort xpGe).filter
        (fun r => decide (r.xp = v))
      = (communityUsers t c).filter (fun r => decide (r.xp = v))) ∧
    ((communityUsers t c).length ≤ O → get_leaderboard t c L O = []) ∧
    (∀ k : Nat, (communityUsers t c).length ≤ k * L →
      ((List.range k).map (fun i => get_leaderboard t c L (i * L))).flatten
        = (communityUsers t c).insertionSort xpGe) := by
  refine ⟨get_leaderboard_eq_drop_take t c L O, List.sorted_insertionSort xpGe _,
    List.perm_insertionSort xpGe _, fun v => filter_insertionSort_xp v _, ?_, ?_⟩
  · intro hO
    rw [get_leaderboard_eq_drop_take,
      List.drop_eq_nil_of_le (by rw [List.length_insertionSort]; exact hO),
      List.take_nil]
  · intro k hk
    have hmap : (List.range k).map (fun i => get_leaderboard t c L (i * L))
        = (List.range k).map
            (fun i => (((communityUsers t c).insertionSort xpGe).drop (i * L)).take L) :=
      List.map_congr_left (fun i _ => get_leaderboard_eq_drop_take t c L (i * L))
    rw [hmap]
    exact join_window_chunks k _ L (by rw [List.length_insertionSort]; exact hk)

/-- Concrete table shared by the witness theorems below. -/
def exTable : Table :=
  ⟨[(1, { user_id := 10, community_id := 7, xp := 50, message_count := 1, last_activity := 0 }),
    (2, { user_id := 11, community_id := 7, xp := 120, message_count := 2, last_activity := 0 }),
    (3, { user_id := 12, community_id := 8, xp := 300, message_count := 3, last_activity := 0 }),
    (4, { user_id := 13, community_id := 7, xp := 50, message_count := 4, last_activity := 0 })],
   5⟩

/-- Witness for C3 on a concrete four-record table: offset past the
community's three records yields the empty page, and two pages of width two
concatenate to the full sorted list. -/
theorem get_leaderboard_spec_witness :
    get_leaderboard exTable 7 2 4 = [] ∧
    ((List.range 2).map (fun i => get_leaderboard exTable 7 2 (i * 2))).flatten
      = (communityUsers exTable 7).insertionSort xpGe := by
  have h := get_leaderboard_spec exTable 7 2 4
  exact ⟨h.2.2.2.2.1 (by decide), h.2.2.2.2.2 2 (by decide)⟩

/-! ### XP awarding with cooldown (src/common/rank.py, RankSystem.award_xp) -/

/-- Lookup in the in-memory cooldown dictionary `self.last_activity`.  A
Python dict is an insertion-ordered association list with at most one entry
per key; assignment overwrites in place. -/
def lookupCooldown (m : List (String × Int)) (k : String) : Option Int :=
  (m.find? (fun p => p.1 = k)).map Prod.snd

/-- Assignment `self.last_activity[user_key] = current_time`. -/
def setCooldown : List (String × Int) → String → Int → List (String × Int)
  | [], k, v => [(k, v)]
  | (k', v') :: rest, k, v =>
    if k' = k then (k, v) :: rest else (k', v') :: setCooldown rest k v

/-- The cooldown key f-string `platform:community_id:user_id`. -/
def userKey (platform : String) (community_id user_id : Nat) : String :=
  platform ++ ":" ++ toString community_id ++ ":" ++ toString user_id

/-- The state the award path touches: the platform's user table and the
in-memory cooldown map. -/
structure RankState where
  table : Table
  last_activity : List (String × Int)
deriving Repr, DecidableEq

/-- The first record stored under the composite key, if any. -/
def storedRecord (t : Table) (community_id user_id : Nat) : Option UserRecord :=
  (findUser t.docs community_id user_id).map Prod.snd

/-- Embedding of `RankSystem.get_rank_data` (per-table body): fetch or
create the record, then backfill the `username` field on records lacking it,
writing the backfilled record back via `update_user_data` (whose return
value the source discards, returning its own mutated dict). -/
def get_rank_data (t : Table) (community_id user_id : Nat) (uname : String)
    (create_if_not_exists : Bool) : Option UserRecord × Table :=
  match get_user_data t community_id user_id create_if_not_exists with
  | (none, t1) => (none, t1)
  | (some ud, t1) =>
    match ud.username with
    | some _ => (some ud, t1)
    | none =>
      let ud' := { ud with username := some uname }
      (some ud', (update_user_data t1 community_id user_id ud').2)

/-- Return payload of a successful `award_xp`. -/
structure AwardResult where
  user_data : UserRecord
  xp_gain : Int
  level : Nat
  level_up : Bool
  old_level : Nat
deriving Repr, DecidableEq

/-- Embedding of `RankSystem.award_xp`.  `now` stands for
`int(time.time())` and `xp_gain` for the drawn `random.randint(*xp_range)`.
Levels use the nonneg-domain `calculate_level` (the negative branch, where
`math.sqrt` raises, is covered by `calculate_level_checked` / C10).  The
`(none, ...)` fallthrough after `get_rank_data` is unreachable since the
call passes `create_if_not_exists = true`. -/
def award_xp (cooldown now xp_gain : Int) (platform : String)
    (community_id user_id : Nat) (uname : String) (st : RankState) :
    Option AwardResult × RankState :=
  let key := userKey platform community_id user_id
  let onCooldown : Bool :=
    match lookupCooldown st.last_activity key with
    | some t0 => decide (now - t0 < cooldown)
    | none => false
  if onCooldown then (none, st)
  else
    match get_rank_data st.table community_id user_id uname true with
    | (none, t1) => (none, ⟨t1, st.last_activity⟩)
    | (some ud, t1) =>
      let old_level := calculate_level ud.xp.toNat
      let ud1 := { ud with xp := ud.xp + xp_gain,
                           message_count := ud.message_count + 1,
                           last_activity := now }
      let la1 := setCooldown st.last_activity key now
      let upd := update_user_data t1 community_id user_id ud1
      let new_level := calculate_level upd.1.xp.toNat
      (some { user_data := upd.1, xp_gain := xp_gain, level := new_level,
              level_up := decide (old_level < new_level),
              old_level := old_level },
       ⟨upd.2, la1⟩)

/-! ### C1 lemmas -/

lemma findUser_keys {docs : List (Nat × UserRecord)} {c u : Nat}
    {q : Nat × UserRecord} (h : findUser docs c u = some q) :
    q.2.user_id = u ∧ q.2.community_id = c := by
  unfold findUser at h
  have := List.find?_some h
  simpa using this

lemma lookupCooldown_set (k : String) (v : Int) :
    ∀ m : List (String × Int), lookupCooldown (setCooldown m k v) k = some v
  | [] => by
    unfold setCooldown lookupCooldown
    rw [List.find?_cons_of_pos _ (by simp)]
    rfl
  | (k', v') :: rest => by
    unfold setCooldown
    by_cases h : k' = k
    · rw [if_pos h]
      unfold lookupCooldown
      rw [List.find?_cons_of_pos _ (by simp)]
      rfl
    · rw [if_neg h]
      unfold lookupCooldown
      rw [List.find?_cons_of_neg _ (by simp [h])]
      exact lookupCooldown_set k v rest

lemma findUser_map_update {c u i : Nat} {r : UserRecord} (r' : UserRecord)
    (hu : r'.user_id = u) (hc : r'.community_id = c) :
    ∀ docs : List (Nat × UserRecord), findUser docs c u = some (i, r) →
      findUser (docs.map (fun p => if p.1 = i then (p.1, r') else p)) c u
        = some (i, r')
  | [], h => by simp [findUser] at h
  | q :: rest, h => by
    unfold findUser at h ⊢
    by_cases hq : q.2.user_id = u ∧ q.2.community_id = c
    · rw [List.find?_cons_of_pos _ (by simp [hq.1, hq.2])] at h
      have hqe : q = (i, r) := by injection h
      subst hqe
      simp only [List.map_cons, if_pos rfl]
      rw [List.find?_cons_of_pos _ (by simp [hu, hc])]
      simp
    · rw [List.find?_cons_of_neg _ (by simp [hq])] at h
      by_cases hid : q.1 = i
      · simp only [List.map_cons, if_pos hid]
        rw [List.find?_cons_of_pos _ (by simp [hu, hc]), hid]
      · simp only [List.map_cons, if_neg hid]
        rw [List.find?_cons_of_neg _ (by simp [hq])]
        exact findUser_map_update r' hu hc rest h

lemma findUser_append_match {docs : List (Nat × UserRecord)} {c u n : Nat}
    {r : UserRecord} (hu : r.user_id = u) (hc : r.community_id = c)
    (h : findUser docs c u = none) :
    findUser (docs ++ [(n, r)]) c u = some (n, r) := by
  unfold findUser at h ⊢
  rw [List.find?_append, h]
  simp [hu, hc]

lemma get_user_data_found {t : Table} {c u : Nat} {q : Nat × UserRecord}
    (h : findUser t.docs c u = some q) (b : Bool) :
    get_user_data t c u b = (some q.2, t) := by
  unfold get_user_data
  rw [h]

lemma get_user_data_create_none {t : Table} {c u : Nat}
    (h : findUser t.docs c u = none) :
    get_user_data t c u true
      = (some { user_id := u, community_id := c, xp := 0, message_count := 0,
                last_activity := 0 },
         ⟨t.docs ++ [(t.nextId,
            { user_id := u, community_id := c, xp := 0, message_count := 0,
              last_activity := 0 })], t.nextId + 1⟩) := by
  unfold get_user_data
  rw [h]
  rfl

lemma update_user_data_found {t : Table} {c u : Nat} {q : Nat × UserRecord}
    (h : findUser t.docs c u = some q) (data : UserRecord) :
    update_user_data t c u data
      = ({ data with user_id := u, community_id := c },
         t.updateDoc q.1 { data with user_id := u, community_id := c }) := by
  unfold update_user_data
  rw [h]

lemma get_rank_data_eq_named {t : Table} {c u i : Nat} {r : UserRecord}
    {s : String} (hf : findUser t.docs c u = some (i, r))
    (hn : r.username = some s) (un : String) :
    get_rank_data t c u un true = (some r, t) := by
  simp only [get_rank_data, get_user_data_found hf true, hn]

lemma get_rank_data_eq_unnamed {t : Table} {c u i : Nat} {r : UserRecord}
    (hf : findUser t.docs c u = some (i, r)) (hn : r.username = none)
    (un : String) :
    get_rank_data t c u un true
      = (some { r with username := some un },
         t.updateDoc i
           { r with username := some un, user_id := u, community_id := c }) := by
  simp only [get_rank_data, get_user_data_found hf true, hn]
  rw [update_user_data_found hf]

lemma get_rank_data_eq_create {t : Table} {c u : Nat}
    (hf : findUser t.docs c u = none) (un : String) :
    get_rank_data t c u un true
      = (some { user_id := u, community_id := c, xp := 0, message_count := 0,
                last_activity := 0, username := some un },
         Table.updateDoc
           ⟨t.docs ++ [(t.nextId,
              { user_id := u, community_id := c, xp := 0, message_count := 0,
                last_activity := 0 })], t.nextId + 1⟩ t.nextId
           { user_id := u, community_id := c, xp := 0, message_count := 0,
             last_activity := 0, username := some un }) := by
  have happ : findUser (t.docs ++ [(t.nextId,
      { user_id := u, community_id := c, xp := 0, message_count := 0,
        last_activity := 0 })]) c u
      = some (t.nextId,
        { user_id := u, community_id := c, xp := 0, message_count := 0,
          last_activity := 0 }) :=
    findUser_append_match rfl rfl hf
  simp only [get_rank_data, get_user_data_create_none hf]
  rw [update_user_data_found happ]

/-- The award path's intermediate state: `get_rank_data` with
`create_if_not_exists = True` always yields a record, the table it returns
holds a record under the composite key, and the returned record's xp and
message_count equal the previously stored values (zero for a fresh
record). -/
lemma get_rank_data_create (t : Table) (c u : Nat) (un : String) :
    ∃ ud t1 q, get_rank_data t c u un true = (some ud, t1) ∧
      findUser t1.docs c u = some q ∧
      ud.xp = ((storedRecord t c u).map (fun r => r.xp)).getD 0 ∧
      ud.message_count
        = ((storedRecord t c u).map (fun r => r.message_count)).getD 0 := by
  cases hfind : findUser t.docs c u with
  | none =>
    refine ⟨_, _, _, get_rank_data_eq_create hfind un,
      findUser_map_update _ rfl rfl _ (findUser_append_match rfl rfl hfind),
      ?_, ?_⟩
    · simp [storedRecord, hfind]
    · simp [storedRecord, hfind]
  | some q =>
    obtain ⟨i, r⟩ := q
    cases hname : r.username with
    | some s =>
      exact ⟨r, t, (i, r), get_rank_data_eq_named hfind hname un, hfind,
        by simp [storedRecord, hfind], by simp [storedRecord, hfind]⟩
    | none =>
      refine ⟨_, _, _, get_rank_data_eq_unnamed hfind hname un,
        findUser_map_update _ rfl rfl _ hfind, ?_, ?_⟩
      · simp [storedRecord, hfind]
      · simp [storedRecord, hfind]

/-- C1: a call within the cooldown window for the key returns none and
leaves both the table and the cooldown map untouched; a call with no award
for the key within the last cooldown seconds succeeds: it records the
cooldown time and stores a record with the XP gain added, the message count
incremented, and `last_activity` set to the call time. -/
theorem award_xp_spec (cooldown now xp_gain : Int) (p : String) (c u : Nat)
    (un : String) (st : RankState) :
    (∀ t0, lookupCooldown st.last_activity (userKey p c u) = some t0 →
       now - t0 < cooldown →
       award_xp cooldown now xp_gain p c u un st = (none, st)) ∧
    ((∀ t0, lookupCooldown st.last_activity (userKey p c u) = some t0 →
        cooldown ≤ now - t0) →
      ∃ res st', award_xp cooldown now xp_gain p c u un st = (some res, st') ∧
        lookupCooldown st'.last_activity (userKey p c u) = some now ∧
        ∃ r', storedRecord st'.table c u = some r' ∧
          r'.xp = ((storedRecord st.table c u).map (fun r => r.xp)).getD 0
                    + xp_gain ∧
          r'.message_count
            = ((storedRecord st.table c u).map
                (fun r => r.message_count)).getD 0 + 1 ∧
          r'.last_activity = now) := by
  constructor
  · intro t0 hl hcd
    simp only [award_xp, hl]
    simp [hcd]
  · intro hoff
    obtain ⟨ud, t1, q, hgrd, hfind1, hxp, hmsg⟩ := get_rank_data_create st.table c u un
    obtain ⟨i, r0⟩ := q
    have hcool : (match lookupCooldown st.last_activity (userKey p c u) with
        | some t0 => decide (now - t0 < cooldown) | none => false) = false := by
      cases hl : lookupCooldown st.last_activity (userKey p c u) with
      | none => rfl
      | some t0 => simpa using not_lt.mpr (hoff t0 hl)
    have hupd := update_user_data_found (t := t1) hfind1 { ud with xp := ud.xp + xp_gain, message_count := ud.message_count + 1, last_activity := now }
    simp only [award_xp, hcool, Bool.false_eq_true, if_false, hgrd, hupd]
    refine ⟨_, _, rfl, lookupCooldown_set _ _ _, ?_⟩
    exact ⟨_, by unfold storedRecord; exact congrArg (Option.map Prod.snd) (findUser_map_update _ rfl rfl t1.docs hfind1),
      by simp [hxp], by simp [hmsg], rfl⟩


/-- Witness for C1: with a 60s cooldown, a call 10s after the recorded award
returns none and changes nothing, and a call with an empty cooldown map
succeeds with the specified effects. -/
theorem award_xp_spec_witness :
    (award_xp 60 1000 20 "discord" 1 2 "alice"
        ⟨Table.empty, [(userKey "discord" 1 2, 990)]⟩
      = (none, ⟨Table.empty, [(userKey "discord" 1 2, 990)]⟩)) ∧
    (∃ res st', award_xp 60 1000 20 "discord" 1 2 "alice" ⟨Table.empty, []⟩
        = (some res, st') ∧
      lookupCooldown st'.last_activity (userKey "discord" 1 2) = some 1000 ∧
      ∃ r', storedRecord st'.table 1 2 = some r' ∧
        r'.xp = ((storedRecord Table.empty 1 2).map (fun r => r.xp)).getD 0
                  + 20 ∧
        r'.message_count
          = ((storedRecord Table.empty 1 2).map
              (fun r => r.message_count)).getD 0 + 1 ∧
        r'.last_activity = 1000) := by
  constructor
  · exact (award_xp_spec 60 1000 20 "discord" 1 2 "alice"
      ⟨Table.empty, [(userKey "discord" 1 2, 990)]⟩).1 990 rfl (by decide)
  · exact (award_xp_spec 60 1000 20 "discord" 1 2 "alice"
      ⟨Table.empty, []⟩).2 (fun t0 h => by simp [lookupCooldown] at h)

/-! ### Bulk migration upsert passes (src/common/rank.py)

`RankSystem._update_reddit_rank_database` and
`RankSystem._process_mee6_batch` share one shape: build a lookup dict over a
snapshot of the table once, then for each accumulated user either update the
snapshot's doc_id in place or insert a fresh record.  The shared shape is
factored into `upsertFold`; each pass instantiates the lookup, the merge
(TinyDB `update` merges fields, preserving unwritten ones such as
`last_activity`) and the fresh record.  The new/updated counters are pure
output statistics and do not affect the table, so they are not modelled. -/

/-- Python dict assignment: overwrite in place or append. -/
def dictSet [DecidableEq κ] : List (κ × ν) → κ → ν → List (κ × ν)
  | [], k, v => [(k, v)]
  | (k', v') :: rest, k, v =>
    if k' = k then (k, v) :: rest else (k', v') :: dictSet rest k v

/-- Python `dict.get`. -/
def dictGet [DecidableEq κ] (m : List (κ × ν)) (k : κ) : Option ν :=
  (m.find? (fun p => p.1 = k)).map Prod.snd

/-- The domain key of a stored record, as (community_id, user_id). -/
def recKey (r : UserRecord) : Nat × Nat := (r.community_id, r.user_id)

def docsKeys (docs : List (Nat × UserRecord)) : List (Nat × Nat) :=
  docs.map (fun p => recKey p.2)

def tableKeys (t : Table) : List (Nat × Nat) := docsKeys t.docs

/-- C4's invariant: each (community_id, user_id) pair identifies at most one
record in the table. -/
def uniqueKeys (t : Table) : Prop := (tableKeys t).Nodup

instance (t : Table) : Decidable (uniqueKeys t) := by
  unfold uniqueKeys; infer_instance

/-- TinyDB `table.update(fields, doc_ids=[i])` as a merge into the stored
document. -/
def Table.updateDocWith (t : Table) (i : Nat) (f : UserRecord → UserRecord) :
    Table :=
  ⟨t.docs.map (fun p => if p.1 = i then (p.1, f p.2) else p), t.nextId⟩

/-- Accumulated per-author stats of the Reddit migration
(`user_xp_map[author.id]`). -/
structure RedditStats where
  xp : Int
  submissions : Nat
  comments : Nat
  name : String
deriving Repr, DecidableEq

/-- The `existing_users_map` of `_update_reddit_rank_database`: one pass
over `table.all()`, keyed by `(user_id, community_id)`, later docs
overriding earlier ones. -/
def redditExistingMap (docs : List (Nat × UserRecord)) :
    List ((Nat × Nat) × (Nat × UserRecord)) :=
  docs.foldl (fun m p => dictSet m (p.2.user_id, p.2.community_id) p) []

/-- The `user_data` dict of the Reddit pass, merged over the stored record
in the update case (the unwritten `last_activity` survives; the
`reddit_import_date` string is not modelled). -/
def redditUserData (cid uid : Nat) (stats : RedditStats)
    (base : UserRecord) : UserRecord :=
  { base with user_id := uid, community_id := cid, xp := stats.xp, message_count := stats.submissions + stats.comments, submission_count := stats.submissions, comment_count := stats.comments, username := some stats.name }

/-- The inserted record of the Reddit pass (absent keys read back as
defaults). -/
def redditFreshUser (cid uid : Nat) (stats : RedditStats) : UserRecord :=
  { user_id := uid, community_id := cid, xp := stats.xp,
    message_count := stats.submissions + stats.comments,
    submission_count := stats.submissions, comment_count := stats.comments,
    username := some stats.name, last_activity := 0 }

/-- One Mee6 `user_update` dict collected from the paginated API. -/
structure Mee6Update where
  user_id : Nat
  xp : Int
  message_count : Nat
  username : String
deriving Repr, DecidableEq

/-- The `existing_users_map` of `_process_mee6_batch`: docs of the batch's
guild only, keyed by `user_id`. -/
def mee6ExistingMap (guildId : Nat) (docs : List (Nat × UserRecord)) :
    List (Nat × (Nat × UserRecord)) :=
  docs.foldl
    (fun m p => if p.2.community_id = guildId then dictSet m p.2.user_id p else m)
    []

/-- The `user_data` dict of the Mee6 pass, merged over the stored record. -/
def mee6UserData (guildId : Nat) (upd : Mee6Update)
    (base : UserRecord) : UserRecord :=
  { base with user_id := upd.user_id, community_id := guildId, xp := upd.xp, message_count := upd.message_count, username := some upd.username }

/-- The inserted record of the Mee6 pass. -/
def mee6FreshUser (guildId : Nat) (upd : Mee6Update) : UserRecord :=
  { user_id := upd.user_id, community_id := guildId, xp := upd.xp,
    message_count := upd.message_count, username := some upd.username,
    last_activity := 0 }

/-- The shared loop shape of both passes: per pending item, update the
snapshot-found doc_id in place or insert a fresh record. -/
def upsertFold (mfind : π → Option (Nat × UserRecord))
    (merge : π → UserRecord → UserRecord) (fresh : π → UserRecord)
    (pending : List π) (t : Table) : Table :=
  pending.foldl
    (fun tcur q =>
      match mfind q with
      | some ex => tcur.updateDocWith ex.1 (merge q)
      | none => (tcur.insert (fresh q)).1)
    t

/-- Embedding of `RankSystem._update_reddit_rank_database` (table effect). -/
def update_reddit_rank_database (community_id : Nat)
    (user_xp_map : List (Nat × RedditStats)) (t : Table) : Table :=
  let m := redditExistingMap t.docs
  upsertFold (fun q => dictGet m (q.1, community_id))
    (fun q base => redditUserData community_id q.1 q.2 base)
    (fun q => redditFreshUser community_id q.1 q.2) user_xp_map t

/-- Embedding of `RankSystem._process_mee6_batch` (table effect). -/
def process_mee6_batch (guildId : Nat) (batch : List Mee6Update)
    (t : Table) : Table :=
  let m := mee6ExistingMap guildId t.docs
  upsertFold (fun q => dictGet m q.user_id)
    (fun q base => mee6UserData guildId q base)
    (fun q => mee6FreshUser guildId q) batch t

/-! ### C4 lemmas: key uniqueness as an invariant -/

lemma dictGet_nil [DecidableEq κ] (k : κ) : dictGet ([] : List (κ × ν)) k = none :=
  rfl

lemma dictGet_cons [DecidableEq κ] (a : κ) (b : ν) (m : List (κ × ν)) (k : κ) :
    dictGet ((a, b) :: m) k = if a = k then some b else dictGet m k := by
  unfold dictGet
  by_cases h : a = k
  · rw [List.find?_cons_of_pos _ (by simp [h]), if_pos h]
    rfl
  · rw [List.find?_cons_of_neg _ (by simp [h]), if_neg h]

lemma dictGet_dictSet [DecidableEq κ] (k k' : κ) (v : ν) :
    ∀ m : List (κ × ν),
      dictGet (dictSet m k v) k' = if k = k' then some v else dictGet m k'
  | [] => by
    unfold dictSet
    rw [dictGet_cons, dictGet_nil]
  | (a, b) :: rest => by
    unfold dictSet
    by_cases hak : a = k
    · rw [if_pos hak, dictGet_cons, dictGet_cons]
      by_cases h : k = k'
      · rw [if_pos h, if_pos h]
      · rw [if_neg h, if_neg h, if_neg (fun q => h (hak ▸ q))]
    · rw [if_neg hak, dictGet_cons, dictGet_cons]
      by_cases hab : a = k'
      · rw [if_pos hab, if_neg (fun q => hak (hab.trans q.symm)), if_pos hab]
      · rw [if_neg hab, if_neg hab, dictGet_dictSet k k' v rest]

lemma redditExistingMap_aux (k : Nat × Nat) :
    ∀ (docs : List (Nat × UserRecord))
      (m0 : List ((Nat × Nat) × (Nat × UserRecord))),
      (∀ v, dictGet
          (docs.foldl (fun m p => dictSet m (p.2.user_id, p.2.community_id) p) m0)
          k = some v →
        (v ∈ docs ∧ (v.2.user_id, v.2.community_id) = k) ∨ dictGet m0 k = some v) ∧
      (dictGet
          (docs.foldl (fun m p => dictSet m (p.2.user_id, p.2.community_id) p) m0)
          k = none →
        dictGet m0 k = none ∧ ∀ p ∈ docs, (p.2.user_id, p.2.community_id) ≠ k)
  | [], m0 => by
    refine ⟨fun v h => Or.inr h, fun h => ⟨h, ?_⟩⟩
    intro p hp
    simp at hp
  | p0 :: rest, m0 => by
    constructor
    · intro v h
      rcases (redditExistingMap_aux k rest
          (dictSet m0 (p0.2.user_id, p0.2.community_id) p0)).1 v
          (by simpa using h) with h1 | h2
      · exact Or.inl ⟨List.mem_cons_of_mem _ h1.1, h1.2⟩
      · rw [dictGet_dictSet] at h2
        by_cases hk : (p0.2.user_id, p0.2.community_id) = k
        · rw [if_pos hk] at h2
          obtain rfl : p0 = v := Option.some_inj.mp h2
          exact Or.inl ⟨List.mem_cons_self _ _, hk⟩
        · rw [if_neg hk] at h2
          exact Or.inr h2
    · intro h
      have hr := (redditExistingMap_aux k rest
          (dictSet m0 (p0.2.user_id, p0.2.community_id) p0)).2 (by simpa using h)
      rw [dictGet_dictSet] at hr
      by_cases hk : (p0.2.user_id, p0.2.community_id) = k
      · rw [if_pos hk] at hr
        exact absurd hr.1 (by simp)
      · rw [if_neg hk] at hr
        refine ⟨hr.1, ?_⟩
        intro p hp
        rcases List.mem_cons.mp hp with rfl | hmem
        · exact hk
        · exact hr.2 p hmem

lemma redditExistingMap_some {docs : List (Nat × UserRecord)} {k : Nat × Nat}
    {ex : Nat × UserRecord}
    (h : dictGet (redditExistingMap docs) k = some ex) :
    ex ∈ docs ∧ (ex.2.user_id, ex.2.community_id) = k := by
  rcases (redditExistingMap_aux k docs []).1 ex h with h1 | h2
  · exact h1
  · rw [dictGet_nil] at h2
    exact absurd h2 (by simp)

lemma redditExistingMap_none {docs : List (Nat × UserRecord)} {k : Nat × Nat}
    (h : dictGet (redditExistingMap docs) k = none) :
    ∀ p ∈ docs, (p.2.user_id, p.2.community_id) ≠ k :=
  ((redditExistingMap_aux k docs []).2 h).2

lemma mee6ExistingMap_aux (g : Nat) (k : Nat) :
    ∀ (docs : List (Nat × UserRecord))
      (m0 : List (Nat × (Nat × UserRecord))),
      (∀ v, dictGet
          (docs.foldl
            (fun m p => if p.2.community_id = g then dictSet m p.2.user_id p else m)
            m0) k = some v →
        (v ∈ docs ∧ v.2.community_id = g ∧ v.2.user_id = k) ∨
          dictGet m0 k = some v) ∧
      (dictGet
          (docs.foldl
            (fun m p => if p.2.community_id = g then dictSet m p.2.user_id p else m)
            m0) k = none →
        dictGet m0 k = none ∧
          ∀ p ∈ docs, p.2.community_id = g → p.2.user_id ≠ k)
  | [], m0 => by
    refine ⟨fun v h => Or.inr h, fun h => ⟨h, ?_⟩⟩
    intro p hp
    simp at hp
  | p0 :: rest, m0 => by
    constructor
    · intro v h
      by_cases hg : p0.2.community_id = g
      · rcases (mee6ExistingMap_aux g k rest (dictSet m0 p0.2.user_id p0)).1 v
            (by simpa [hg] using h) with h1 | h2
        · exact Or.inl ⟨List.mem_cons_of_mem _ h1.1, h1.2⟩
        · rw [dictGet_dictSet] at h2
          by_cases hk : p0.2.user_id = k
          · rw [if_pos hk] at h2
            obtain rfl : p0 = v := Option.some_inj.mp h2
            exact Or.inl ⟨List.mem_cons_self _ _, hg, hk⟩
          · rw [if_neg hk] at h2
            exact Or.inr h2
      · rcases (mee6ExistingMap_aux g k rest m0).1 v (by simpa [hg] using h)
            with h1 | h2
        · exact Or.inl ⟨List.mem_cons_of_mem _ h1.1, h1.2⟩
        · exact Or.inr h2
    · intro h
      by_cases hg : p0.2.community_id = g
      · have hr := (mee6ExistingMap_aux g k rest (dictSet m0 p0.2.user_id p0)).2
          (by simpa [hg] using h)
        rw [dictGet_dictSet] at hr
        by_cases hk : p0.2.user_id = k
        · rw [if_pos hk] at hr
          exact absurd hr.1 (by simp)
        · rw [if_neg hk] at hr
          refine ⟨hr.1, ?_⟩
          intro p hp hpg
          rcases List.mem_cons.mp hp with rfl | hmem
          · exact hk
          · exact hr.2 p hmem hpg
      · have hr := (mee6ExistingMap_aux g k rest m0).2 (by simpa [hg] using h)
        refine ⟨hr.1, ?_⟩
        intro p hp hpg
        rcases List.mem_cons.mp hp with rfl | hmem
        · exact absurd hpg hg
        · exact hr.2 p hmem hpg

lemma mee6ExistingMap_some {docs : List (Nat × UserRecord)} {g k : Nat}
    {ex : Nat × UserRecord}
    (h : dictGet (mee6ExistingMap g docs) k = some ex) :
    ex ∈ docs ∧ ex.2.community_id = g ∧ ex.2.user_id = k := by
  rcases (mee6ExistingMap_aux g k docs []).1 ex h with h1 | h2
  · exact h1
  · rw [dictGet_nil] at h2
    exact absurd h2 (by simp)

lemma mee6ExistingMap_none {docs : List (Nat × UserRecord)} {g k : Nat}
    (h : dictGet (mee6ExistingMap g docs) k = none) :
    ∀ p ∈ docs, p.2.community_id = g → p.2.user_id ≠ k :=
  ((mee6ExistingMap_aux g k docs []).2 h).2

lemma insert_WF {t : Table} (h : t.WF) (r : UserRecord) :
    (t.insert r).1.WF := by
  obtain ⟨hnd, hlt⟩ := h
  constructor
  · show ((t.docs ++ [(t.nextId, r)]).map Prod.fst).Nodup
    rw [List.map_append]
    rw [List.nodup_append]
    refine ⟨hnd, List.nodup_singleton _, ?_⟩
    intro a ha hb
    simp only [List.map_cons, List.map_nil, List.mem_singleton] at hb
    obtain ⟨p, hp, rfl⟩ := List.mem_map.mp ha
    exact absurd hb (Nat.ne_of_lt (hlt p hp))
  · intro p hp
    rcases List.mem_append.mp hp with hmem | hmem
    · exact Nat.lt_succ_of_lt (hlt p hmem)
    · simp only [List.mem_singleton] at hmem
      subst hmem
      exact Nat.lt_succ_self _

lemma updateDocWith_WF {t : Table} (h : t.WF) (i : Nat)
    (f : UserRecord → UserRecord) : (t.updateDocWith i f).WF := by
  obtain ⟨hnd, hlt⟩ := h
  constructor
  · show ((t.docs.map (fun p => if p.1 = i then (p.1, f p.2) else p)).map
      Prod.fst).Nodup
    rw [List.map_map]
    have : (Prod.fst ∘ fun p : Nat × UserRecord =>
        if p.1 = i then (p.1, f p.2) else p) = Prod.fst := by
      funext p
      by_cases hpi : p.1 = i <;> simp [hpi]
    rw [this]
    exact hnd
  · intro p hp
    obtain ⟨p0, hp0, hq⟩ := List.mem_map.mp hp
    have : p.1 = p0.1 := by
      by_cases hpi : p0.1 = i <;> simp [hpi, ← hq]
    rw [this]
    exact hlt p0 hp0

lemma tableKeys_insert (t : Table) (r : UserRecord) :
    tableKeys (t.insert r).1 = tableKeys t ++ [recKey r] := by
  simp [tableKeys, docsKeys, Table.insert]

lemma uniqueKeys_insert {t : Table} (hUK : uniqueKeys t) {r : UserRecord}
    (hnot : recKey r ∉ tableKeys t) : uniqueKeys (t.insert r).1 := by
  unfold uniqueKeys
  rw [tableKeys_insert, List.nodup_append]
  refine ⟨hUK, List.nodup_singleton _, ?_⟩
  intro a ha hb
  simp only [List.mem_singleton] at hb
  subst hb
  exact hnot ha

lemma tableKeys_updateDocWith {t : Table} {i : Nat}
    {f : UserRecord → UserRecord}
    (h : ∀ p ∈ t.docs, p.1 = i → recKey (f p.2) = recKey p.2) :
    tableKeys (t.updateDocWith i f) = tableKeys t := by
  show ((t.docs.map (fun p => if p.1 = i then (p.1, f p.2) else p)).map
      (fun p => recKey p.2)) = t.docs.map (fun p => recKey p.2)
  rw [List.map_map]
  apply List.map_congr_left
  intro p hp
  by_cases hpi : p.1 = i
  · simp [hpi, h p hp hpi]
  · simp [hpi]

/-- Core invariant lemma for C4: the shared upsert loop of the two bulk
migration passes preserves table well-formedness and key uniqueness,
provided the pending items have pairwise distinct target keys and the
snapshot lookup is accurate for the starting table. -/
lemma upsertFold_WF_unique (tk : π → Nat × Nat)
    (mfind : π → Option (Nat × UserRecord))
    (merge : π → UserRecord → UserRecord) (fresh : π → UserRecord)
    (hmerge : ∀ q old, recKey (merge q old) = tk q)
    (hfresh : ∀ q, recKey (fresh q) = tk q) :
    ∀ (pending : List π) (t : Table),
      (pending.map tk).Nodup → t.WF → uniqueKeys t →
      (∀ q ∈ pending, mfind q = none → tk q ∉ tableKeys t) →
      (∀ q ∈ pending, ∀ ex, mfind q = some ex →
        ex.1 < t.nextId ∧ ∀ p ∈ t.docs, p.1 = ex.1 → recKey p.2 = tk q) →
      (upsertFold mfind merge fresh pending t).WF ∧
        uniqueKeys (upsertFold mfind merge fresh pending t)
  | [], t, _, hWF, hUK, _, _ => ⟨hWF, hUK⟩
  | q :: rest, t, hnd, hWF, hUK, hnone, hsome => by
    have hndrest : (rest.map tk).Nodup := by
      rw [List.map_cons, List.nodup_cons] at hnd
      exact hnd.2
    have hqfresh : tk q ∉ rest.map tk := by
      rw [List.map_cons, List.nodup_cons] at hnd
      exact hnd.1
    show ((q :: rest).foldl _ t).WF ∧ uniqueKeys ((q :: rest).foldl _ t)
    simp only [List.foldl_cons]
    cases hm : mfind q with
    | none =>
      have hkey : tk q ∉ tableKeys t := hnone q (List.mem_cons_self _ _) hm
      apply upsertFold_WF_unique tk mfind merge fresh hmerge hfresh rest _
        hndrest (insert_WF hWF _)
        (uniqueKeys_insert hUK (by rw [hfresh q]; exact hkey))
      · intro q' hq' hm'
        rw [tableKeys_insert, hfresh q]
        intro hmem
        rcases List.mem_append.mp hmem with hmem | hmem
        · exact hnone q' (List.mem_cons_of_mem _ hq') hm' hmem
        · simp only [List.mem_singleton] at hmem
          exact hqfresh (hmem ▸ List.mem_map_of_mem tk hq')
      · intro q' hq' ex' hm'
        obtain ⟨hlt', hkeys'⟩ := hsome q' (List.mem_cons_of_mem _ hq') ex' hm'
        refine ⟨Nat.lt_succ_of_lt hlt', ?_⟩
        intro p hp hpi
        rcases List.mem_append.mp hp with hmem | hmem
        · exact hkeys' p hmem hpi
        · simp only [List.mem_singleton] at hmem
          subst hmem
          exact absurd hpi (by omega)
    | some ex =>
      obtain ⟨hlt, hkeys⟩ := hsome q (List.mem_cons_self _ _) ex hm
      have hkeq : tableKeys (t.updateDocWith ex.1 (merge q)) = tableKeys t :=
        tableKeys_updateDocWith (fun p hp hpi =>
          (hmerge q p.2).trans (hkeys p hp hpi).symm)
      apply upsertFold_WF_unique tk mfind merge fresh hmerge hfresh rest _
        hndrest (updateDocWith_WF hWF _ _) (by unfold uniqueKeys; rw [hkeq]; exact hUK)
      · intro q' hq' hm'
        rw [hkeq]
        exact hnone q' (List.mem_cons_of_mem _ hq') hm'
      · intro q' hq' ex' hm'
        obtain ⟨hlt', hkeys'⟩ := hsome q' (List.mem_cons_of_mem _ hq') ex' hm'
        refine ⟨hlt', ?_⟩
        intro p hp hpi
        obtain ⟨p0, hp0, hq0⟩ := List.mem_map.mp hp
        by_cases hpi0 : p0.1 = ex.1
        · rw [if_pos hpi0] at hq0
          have hp1 : p.1 = p0.1 := by rw [← hq0]
          have hpk : recKey p.2 = tk q := by rw [← hq0]; exact hmerge q p0.2
          rw [hpk, ← hkeys p0 hp0 hpi0]
          exact hkeys' p0 hp0 (hp1 ▸ hpi)
        · rw [if_neg hpi0] at hq0
          subst hq0
          exact hkeys' p0 hp0 hpi

lemma findUser_none_key {docs : List (Nat × UserRecord)} {c u : Nat}
    (h : findUser docs c u = none) : (c, u) ∉ docsKeys docs := by
  intro hmem
  obtain ⟨p, hp, hkp⟩ := List.mem_map.mp hmem
  unfold findUser at h
  apply (List.find?_eq_none.mp h) p hp
  have hc : p.2.community_id = c := congrArg Prod.fst hkp
  have hu : p.2.user_id = u := congrArg Prod.snd hkp
  simp [hc, hu]

lemma get_user_data_preserves {t : Table} (c u : Nat) (b : Bool)
    (hWF : t.WF) (hUK : uniqueKeys t) :
    (get_user_data t c u b).2.WF ∧ uniqueKeys (get_user_data t c u b).2 := by
  unfold get_user_data
  cases hfind : findUser t.docs c u with
  | some p => exact ⟨hWF, hUK⟩
  | none =>
    cases b with
    | false => exact ⟨hWF, hUK⟩
    | true => exact ⟨insert_WF hWF _, uniqueKeys_insert hUK (findUser_none_key hfind)⟩

lemma update_user_data_preserves {t : Table} (c u : Nat) (data : UserRecord)
    (hWF : t.WF) (hUK : uniqueKeys t) :
    (update_user_data t c u data).2.WF ∧
      uniqueKeys (update_user_data t c u data).2 := by
  unfold update_user_data
  cases hfind : findUser t.docs c u with
  | some p =>
    have hmem : p ∈ t.docs := List.mem_of_find?_eq_some hfind
    have hk := findUser_keys hfind
    have hkeq : tableKeys
        (t.updateDoc p.1 { data with user_id := u, community_id := c })
        = tableKeys t := by
      apply tableKeys_updateDocWith
        (f := fun _ => { data with user_id := u, community_id := c })
      intro pp hpp hpi
      have hpe : pp = p := List.inj_on_of_nodup_map hWF.1 hpp hmem hpi
      subst hpe
      simp [recKey, hk.1, hk.2]
    constructor
    · exact updateDocWith_WF hWF p.1
        (fun _ => { data with user_id := u, community_id := c })
    · show uniqueKeys
        (t.updateDoc p.1 { data with user_id := u, community_id := c })
      unfold uniqueKeys
      rw [hkeq]
      exact hUK
  | none =>
    exact ⟨insert_WF hWF _, uniqueKeys_insert hUK (findUser_none_key hfind)⟩

lemma update_reddit_preserves (cid : Nat) (uxm : List (Nat × RedditStats))
    (t : Table) (hnd : (uxm.map Prod.fst).Nodup) (hWF : t.WF)
    (hUK : uniqueKeys t) :
    (update_reddit_rank_database cid uxm t).WF ∧
      uniqueKeys (update_reddit_rank_database cid uxm t) := by
  simp only [update_reddit_rank_database]
  apply upsertFold_WF_unique (fun q : Nat × RedditStats => (cid, q.1))
    (fun q : Nat × RedditStats => dictGet (redditExistingMap t.docs) (q.1, cid))
    (fun (q : Nat × RedditStats) base => redditUserData cid q.1 q.2 base)
    (fun q : Nat × RedditStats => redditFreshUser cid q.1 q.2)
    (fun q old => rfl) (fun q => rfl)
  · show (uxm.map (fun q : Nat × RedditStats => (cid, q.1))).Nodup
    have hmm := hnd.map (f := fun x => (cid, x))
      (fun a b h => congrArg Prod.snd h)
    simpa [List.map_map] using hmm
  · exact hWF
  · exact hUK
  · intro q hq hm' hmem
    obtain ⟨p, hp, hkp⟩ := List.mem_map.mp hmem
    apply redditExistingMap_none hm' p hp
    have hc : p.2.community_id = cid := congrArg Prod.fst hkp
    have hu : p.2.user_id = q.1 := congrArg Prod.snd hkp
    rw [hc, hu]
  · intro q hq ex hm'
    obtain ⟨hmemEx, hkEx⟩ := redditExistingMap_some hm'
    refine ⟨hWF.2 ex hmemEx, ?_⟩
    intro p hp hpi
    have hpe : p = ex := List.inj_on_of_nodup_map hWF.1 hp hmemEx hpi
    subst hpe
    have hu : p.2.user_id = q.1 := congrArg Prod.fst hkEx
    have hc : p.2.community_id = cid := congrArg Prod.snd hkEx
    simp [recKey, hu, hc]

lemma process_mee6_preserves (g : Nat) (batch : List Mee6Update)
    (t : Table) (hnd : (batch.map Mee6Update.user_id).Nodup) (hWF : t.WF)
    (hUK : uniqueKeys t) :
    (process_mee6_batch g batch t).WF ∧
      uniqueKeys (process_mee6_batch g batch t) := by
  simp only [process_mee6_batch]
  apply upsertFold_WF_unique (fun q : Mee6Update => (g, q.user_id))
    (fun q : Mee6Update => dictGet (mee6ExistingMap g t.docs) q.user_id)
    (fun (q : Mee6Update) base => mee6UserData g q base)
    (fun q : Mee6Update => mee6FreshUser g q)
    (fun q old => rfl) (fun q => rfl)
  · show (batch.map (fun q : Mee6Update => (g, q.user_id))).Nodup
    have hmm := hnd.map (f := fun x => (g, x))
      (fun a b h => congrArg Prod.snd h)
    simpa [List.map_map] using hmm
  · exact hWF
  · exact hUK
  · intro q hq hm' hmem
    obtain ⟨p, hp, hkp⟩ := List.mem_map.mp hmem
    have hc : p.2.community_id = g := congrArg Prod.fst hkp
    have hu : p.2.user_id = q.user_id := congrArg Prod.snd hkp
    exact mee6ExistingMap_none hm' p hp hc hu
  · intro q hq ex hm'
    obtain ⟨hmemEx, hcEx, huEx⟩ := mee6ExistingMap_some hm'
    refine ⟨hWF.2 ex hmemEx, ?_⟩
    intro p hp hpi
    have hpe : p = ex := List.inj_on_of_nodup_map hWF.1 hp hmemEx hpi
    subst hpe
    simp [recKey, hcEx, huEx]

/-- C4 (amended): starting from a well-formed table in which each
(community_id, user_id) pair identifies at most one record,
`get_user_data` (with or without create), `update_user_data`, and both bulk
migration upsert passes leave at most one record per pair — the bulk passes
under the proviso that their input carries pairwise distinct user ids (the
Reddit pass's `user_xp_map` is a dict keyed by author id, so its keys are
distinct by construction; a Mee6 batch is an unchecked list, see the
counterexample). -/
theorem unique_keys_invariant :
    (∀ (t : Table) (c u : Nat) (b : Bool), t.WF → uniqueKeys t →
      (get_user_data t c u b).2.WF ∧ uniqueKeys (get_user_data t c u b).2) ∧
    (∀ (t : Table) (c u : Nat) (data : UserRecord), t.WF → uniqueKeys t →
      (update_user_data t c u data).2.WF ∧
        uniqueKeys (update_user_data t c u data).2) ∧
    (∀ (t : Table) (cid : Nat) (uxm : List (Nat × RedditStats)),
      (uxm.map Prod.fst).Nodup → t.WF → uniqueKeys t →
      uniqueKeys (update_reddit_rank_database cid uxm t)) ∧
    (∀ (t : Table) (g : Nat) (batch : List Mee6Update),
      (batch.map Mee6Update.user_id).Nodup → t.WF → uniqueKeys t →
      uniqueKeys (process_mee6_batch g batch t)) :=
  ⟨fun t c u b hWF hUK => get_user_data_preserves c u b hWF hUK,
   fun t c u data hWF hUK => update_user_data_preserves c u data hWF hUK,
   fun t cid uxm hnd hWF hUK => (update_reddit_preserves cid uxm t hnd hWF hUK).2,
   fun t g batch hnd hWF hUK => (process_mee6_preserves g batch t hnd hWF hUK).2⟩

/-- Counterexample to C4 as frozen: a Mee6 batch containing the same user
id twice inserts two records for the key (5, 1), because the snapshot
lookup map is built once per batch and is not refreshed between the two
inserts. -/
theorem process_mee6_batch_duplicate_breaks_uniqueness :
    Table.WF Table.empty ∧ uniqueKeys Table.empty ∧
    ¬ uniqueKeys (process_mee6_batch 5
      [⟨1, 100, 2, "a"⟩, ⟨1, 50, 1, "b"⟩] Table.empty) := by
  decide

/-- Witness for C4 on concrete data: creating a fresh user, updating an
existing one, and a singleton Mee6 batch all keep keys unique on the
example table. -/
theorem unique_keys_invariant_witness :
    uniqueKeys (get_user_data exTable 7 99 true).2 ∧
    uniqueKeys (update_user_data exTable 7 10
      { user_id := 0, community_id := 0, xp := 77, message_count := 5,
        last_activity := 3 }).2 ∧
    uniqueKeys (process_mee6_batch 7
      [{ user_id := 10, xp := 500, message_count := 3, username := "x" }]
      exTable) := by
  have h := unique_keys_invariant
  exact ⟨(h.1 exTable 7 99 true (by decide) (by decide)).2,
    (h.2.1 exTable 7 10
      { user_id := 0, community_id := 0, xp := 77, message_count := 5,
        last_activity := 3 } (by decide) (by decide)).2,
    h.2.2.2 exTable 7
      [{ user_id := 10, xp := 500, message_count := 3, username := "x" }]
      (by decide) (by decide) (by decide)⟩

/-! ### C5: migration completion tracking
(src/common/rank_database.py get_migration_status / set_migration_completed,
src/discord_bot/cogs/rank.py RankCog.auto_migrate_mee6) -/

/-- The aggregate stats dict passed to `set_migration_completed`; only the
fields the migration-record path reads are modelled
(`stats.get('source_type', 'mee6')`; the `date` timestamp string is
payload). -/
structure MigStats where
  source_type : String := "mee6"
  total_processed : Nat := 0
  new_users : Nat := 0
  updated_users : Nat := 0
deriving Repr, DecidableEq

structure MigrationRecord where
  migration_key : String
  platform : String
  community_id : Nat
  source_id : Nat
  source_type : String
  stats : MigStats
deriving Repr, DecidableEq

/-- The f-string `platform:community_id:source_id`. -/
def migrationKey (platform : String) (community_id source_id : Nat) : String :=
  platform ++ ":" ++ toString community_id ++ ":" ++ toString source_id

/-- Embedding of `RankDatabase.get_migration_status`: first record whose
`migration_key` matches. -/
def get_migration_status (migrations : List MigrationRecord)
    (platform : String) (community_id source_id : Nat) :
    Option MigrationRecord :=
  migrations.find?
    (fun m => m.migration_key = migrationKey platform community_id source_id)

/-- Embedding of `RankDatabase.set_migration_completed`: insert-only (a
second call for the same key would append a second record). -/
def set_migration_completed (migrations : List MigrationRecord)
    (platform : String) (community_id source_id : Nat) (stats : MigStats) :
    MigrationRecord × List MigrationRecord :=
  let md : MigrationRecord :=
    { migration_key := migrationKey platform community_id source_id,
      platform := platform, community_id := community_id,
      source_id := source_id, source_type := stats.source_type,
      stats := stats }
  (md, migrations ++ [md])

/-- State touched by the Mee6 auto-migration: the discord user table and
the migrations table. -/
structure MigrationState where
  discord_users : Table
  migrations : List MigrationRecord
deriving Repr, DecidableEq

/-- Embedding of the per-guild body of `RankCog.auto_migrate_mee6`: check
`get_migration_status` first and skip entirely when a record exists;
otherwise run the migration (`migrate_from_mee6`, abstracted as
`doMigration` since it performs network I/O against the Mee6 API and writes
only the user table) and record completion.  Both ids are the guild id. -/
def auto_migrate_mee6_guild (doMigration : Table → Table × MigStats)
    (guildId : Nat) (db : MigrationState) : MigrationState :=
  match get_migration_status db.migrations "discord" guildId guildId with
  | some _ => db
  | none =>
    let res := doMigration db.discord_users
    { discord_users := res.1,
      migrations :=
        (set_migration_completed db.migrations "discord" guildId guildId
          res.2).2 }

/-- C5: once a MigrationRecord exists for the (discord, guild, guild) key,
running the import again is a no-op — no table writes and no new
MigrationRecord — because the caller checks `get_migration_status` before
starting; consequently running the same import twice equals running it
once. -/
theorem auto_migrate_idempotent (f : Table → Table × MigStats) (g : Nat)
    (db : MigrationState) :
    (∀ r, get_migration_status db.migrations "discord" g g = some r →
      auto_migrate_mee6_guild f g db = db) ∧
    auto_migrate_mee6_guild f g (auto_migrate_mee6_guild f g db)
      = auto_migrate_mee6_guild f g db := by
  constructor
  · intro r hr
    unfold auto_migrate_mee6_guild
    rw [hr]
  · cases hm : get_migration_status db.migrations "discord" g g with
    | some r =>
      have h1 : auto_migrate_mee6_guild f g db = db := by
        unfold auto_migrate_mee6_guild
        rw [hm]
      rw [h1, h1]
    | none =>
      have h1 : auto_migrate_mee6_guild f g db
          = { discord_users := (f db.discord_users).1,
              migrations :=
                (set_migration_completed db.migrations "discord" g g
                  (f db.discord_users).2).2 } := by
        unfold auto_migrate_mee6_guild
        rw [hm]
      have h2 : get_migration_status
          (set_migration_completed db.migrations "discord" g g
            (f db.discord_users).2).2 "discord" g g
          = some (set_migration_completed db.migrations "discord" g g
              (f db.discord_users).2).1 := by
        unfold get_migration_status at hm ⊢
        unfold set_migration_completed
        rw [List.find?_append, hm]
        simp
      rw [h1]
      unfold auto_migrate_mee6_guild
      simp only [h2]

/-- Concrete existing migration record for the C5 witness. -/
def exMigration : MigrationRecord :=
  { migration_key := migrationKey "discord" 5 5, platform := "discord",
    community_id := 5, source_id := 5, source_type := "mee6", stats := {} }

/-- Witness for C5: with a record already present for guild 5, the
auto-migration leaves the state untouched. -/
theorem auto_migrate_idempotent_witness :
    auto_migrate_mee6_guild (fun t => (t, {})) 5
      ⟨Table.empty, [exMigration]⟩ = ⟨Table.empty, [exMigration]⟩ :=
  (auto_migrate_idempotent (fun t => (t, {})) 5
    ⟨Table.empty, [exMigration]⟩).1 exMigration rfl

/-! ### C7: platform validation (src/common/rank.py get_community_id,
src/common/rank_database.py accessors) -/

/-- A community id is a Discord guild id (int) or a subreddit id (string). -/
inductive CommId
  | int (n : Int)
  | str (s : String)
deriving Repr, DecidableEq

/-- A user as community-ID resolution sees it: the optional direct
`user.guild` and the `getattr(getattr(user, 'guild_id', None), 'id', None)`
fallback (ids are positive, so Python truthiness coincides with
presence). -/
structure PlatformUser where
  guild : Option Int := none
  guild_id_attr : Option Int := none
deriving Repr, DecidableEq

/-- Embedding of `RankSystem.get_community_id`: the guild id for discord
(None in DMs), the configured subreddit id for reddit, and the sentinel
`0` for any other platform string — the source ends with `return 0` and
raises nothing. -/
def get_community_id (subredditId : String) (platform : String)
    (user : PlatformUser) : Option CommId :=
  if platform = "discord" then
    match user.guild with
    | some g => some (CommId.int g)
    | none =>
      match user.guild_id_attr with
      | some g => some (CommId.int g)
      | none => none
  else if platform = "reddit" then some (CommId.str subredditId)
  else some (CommId.int 0)

/-- The username sort key of `get_community_users`:
`x.get('username', '').lower()`. -/
def usernameKey (r : UserRecord) : String := (r.username.getD "").toLower

/-- Ascending comparison on the username key. -/
def unameLe (a b : UserRecord) : Prop := usernameKey a ≤ usernameKey b

instance : DecidableRel unameLe := fun a b => by unfold unameLe; infer_instance

instance : IsTotal UserRecord unameLe := ⟨fun _ _ => le_total _ _⟩

instance : IsTrans UserRecord unameLe := ⟨fun _ _ _ h1 h2 => le_trans h1 h2⟩

/-- Embedding of `RankDatabase.get_community_users` (per-table body):
community filter, optional case-insensitive substring filter on truthy
usernames, then a stable ascending sort by lowercased username. -/
def get_community_users (t : Table) (community_id : Nat)
    (search : Option String) : List UserRecord :=
  let users := (t.docs.map Prod.snd).filter
    (fun r => r.community_id = community_id)
  let users :=
    match search with
    | some s =>
      if s.trim ≠ "" then
        let searchLower := s.toLower.trim
        users.filter (fun r : UserRecord =>
          match r.username with
          | some name => name ≠ "" && name.toLower.containsSubstr searchLower
          | none => false)
      else users
    | none => users
  users.insertionSort unameLe

/-- The two per-platform user tables of the ranks database. -/
structure RankDB where
  discord_users : Table
  reddit_users : Table
deriving Repr, DecidableEq

def RankDB.userTable (db : RankDB) (platform : String) : Table :=
  if platform = "discord" then db.discord_users else db.reddit_users

def RankDB.setUserTable (db : RankDB) (platform : String) (t : Table) :
    RankDB :=
  if platform = "discord" then { db with discord_users := t }
  else { db with reddit_users := t }

/-- `RankDatabase.get_user_data` including its platform guard
(`if platform not in ['discord', 'reddit']: raise ValueError(...)`). -/
def get_user_dataP (db : RankDB) (platform : String)
    (community_id user_id : Nat) (create_if_not_exists : Bool) :
    Except String (Option UserRecord × RankDB) :=
  if platform ≠ "discord" ∧ platform ≠ "reddit" then
    Except.error ("Invalid platform: " ++ platform)
  else
    let r := get_user_data (db.userTable platform) community_id user_id
      create_if_not_exists
    Except.ok (r.1, db.setUserTable platform r.2)

/-- `RankDatabase.update_user_data` including its platform guard. -/
def update_user_dataP (db : RankDB) (platform : String)
    (community_id user_id : Nat) (data : UserRecord) :
    Except String (UserRecord × RankDB) :=
  if platform ≠ "discord" ∧ platform ≠ "reddit" then
    Except.error ("Invalid platform: " ++ platform)
  else
    let r := update_user_data (db.userTable platform) community_id user_id
      data
    Except.ok (r.1, db.setUserTable platform r.2)

/-- `RankDatabase.get_community_users` including its platform guard. -/
def get_community_usersP (db : RankDB) (platform : String)
    (community_id : Nat) (search : Option String) :
    Except String (List UserRecord) :=
  if platform ≠ "discord" ∧ platform ≠ "reddit" then
    Except.error ("Invalid platform: " ++ platform)
  else
    Except.ok (get_community_users (db.userTable platform) community_id search)

/-- `RankDatabase.get_leaderboard` including its platform guard. -/
def get_leaderboardP (db : RankDB) (platform : String) (community_id : Nat)
    (limit offset : Nat) : Except String (List UserRecord) :=
  if platform ≠ "discord" ∧ platform ≠ "reddit" then
    Except.error ("Invalid platform: " ++ platform)
  else
    Except.ok (get_leaderboard (db.userTable platform) community_id limit offset)

/-- Counterexample to C7 as frozen: community-ID resolution for the unknown
platform string "matrix" does not raise — it silently returns the sentinel
community id 0. -/
theorem get_community_id_sentinel :
    get_community_id "sub1" "matrix" {} = some (CommId.int 0) := rfl

/-- C7 (amended): every record accessor raises immediately for a platform
string other than discord/reddit, while community-ID resolution does not
raise — it falls back to the sentinel community id 0. -/
theorem invalid_platform_raises (p : String) (hp1 : p ≠ "discord")
    (hp2 : p ≠ "reddit") :
    (∀ db cid uid b, get_user_dataP db p cid uid b
      = Except.error ("Invalid platform: " ++ p)) ∧
    (∀ db cid uid data, update_user_dataP db p cid uid data
      = Except.error ("Invalid platform: " ++ p)) ∧
    (∀ db cid search, get_community_usersP db p cid search
      = Except.error ("Invalid platform: " ++ p)) ∧
    (∀ db cid L O, get_leaderboardP db p cid L O
      = Except.error ("Invalid platform: " ++ p)) ∧
    (∀ sub user, get_community_id sub p user = some (CommId.int 0)) := by
  refine ⟨?_, ?_, ?_, ?_, ?_⟩
  · intro db cid uid b
    unfold get_user_dataP
    rw [if_pos ⟨hp1, hp2⟩]
  · intro db cid uid data
    unfold update_user_dataP
    rw [if_pos ⟨hp1, hp2⟩]
  · intro db cid search
    unfold get_community_usersP
    rw [if_pos ⟨hp1, hp2⟩]
  · intro db cid L O
    unfold get_leaderboardP
    rw [if_pos ⟨hp1, hp2⟩]
  · intro sub user
    unfold get_community_id
    rw [if_neg hp1, if_neg hp2]

/-- Witness for C7 at the concrete platform string "matrix". -/
theorem invalid_platform_raises_witness :
    get_user_dataP ⟨Table.empty, Table.empty⟩ "matrix" 1 2 true
      = Except.error ("Invalid platform: " ++ "matrix") ∧
    get_community_id "sub" "matrix" {} = some (CommId.int 0) := by
  have h := invalid_platform_raises "matrix" (by decide) (by decide)
  exact ⟨h.1 ⟨Table.empty, Table.empty⟩ 1 2 true, h.2.2.2.2 "sub" {}⟩

/-! ### C10: calculate_level is total on xp >= 0 and raises on xp < 0 -/

/-- C10: `calculate_level` returns a (non-negative) integer without error
for every xp >= 0, raises a math domain error for every xp < 0, and under
the invariant that no stored record has negative XP the error branch is
unreachable for the level computations performed on leaderboard records. -/
theorem calculate_level_checked_spec :
    (∀ xp : Int, 0 ≤ xp →
      calculate_level_checked xp = Except.ok (calculate_level xp.toNat)) ∧
    (∀ xp : Int, xp < 0 →
      calculate_level_checked xp = Except.error "math domain error") ∧
    (∀ (t : Table) (c L O : Nat), (∀ p ∈ t.docs, 0 ≤ p.2.xp) →
      ∀ r ∈ get_leaderboard t c L O,
        ∃ n, calculate_level_checked r.xp = Except.ok n) := by
  refine ⟨?_, ?_, ?_⟩
  · intro xp hxp
    unfold calculate_level_checked
    rw [if_neg (not_lt.mpr hxp)]
  · intro xp hxp
    unfold calculate_level_checked
    rw [if_pos hxp]
  · intro t c L O hpos r hr
    rw [get_leaderboard_eq_drop_take] at hr
    have hr2 : r ∈ (communityUsers t c).insertionSort xpGe :=
      List.mem_of_mem_drop (List.mem_of_mem_take hr)
    have hr3 : r ∈ communityUsers t c := (List.mem_insertionSort xpGe).mp hr2
    unfold communityUsers at hr3
    obtain ⟨hrmem, -⟩ := List.mem_filter.mp hr3
    obtain ⟨p, hp, rfl⟩ := List.mem_map.mp hrmem
    have hge := hpos p hp
    exact ⟨_, by unfold calculate_level_checked; rw [if_neg (not_lt.mpr hge)]⟩

/-- Witness for C10: a positive, a negative, and a stored-record input. -/
theorem calculate_level_checked_spec_witness :
    calculate_level_checked 2500 = Except.ok (calculate_level (2500 : Int).toNat) ∧
    calculate_level_checked (-5) = Except.error "math domain error" ∧
    ∃ n, calculate_level_checked
      ({ user_id := 11, community_id := 7, xp := 120, message_count := 2,
         last_activity := 0 } : UserRecord).xp = Except.ok n := by
  have h := calculate_level_checked_spec
  refine ⟨h.1 2500 (by norm_num), h.2.1 (-5) (by norm_num), ?_⟩
  exact h.2.2 exTable 7 10 0 (by decide)
    { user_id := 11, community_id := 7, xp := 120, message_count := 2,
      last_activity := 0 } (by decide)

/-! ### C8: legacy shelve migration
(src/common/database.py, Database._migrate_from_shelve, Reddit branch) -/

/-- A legacy shelve record as the Reddit migration reads it.  Optional
fields model key absence: `'body' in record_data` distinguishes the two
shapes and `.get(key, default)` fills defaults.  The `slash_command` and
`bot_discord` payloads are passed through unchanged and are modelled as
the pairs their defaults construct: (project, command) and
(sent, sent_utc). -/
structure LegacyRecord where
  id : Option String := none
  author : Option String := none
  body : Option String := none
  created_utc : Option Int := none
  processed : Option Bool := none
  slash_command : Option (Option String × Option String) := none
  title : Option String := none
  selftext : Option String := none
  permalink : Option String := none
  url : Option String := none
  link_flair_text : Option String := none
  link_flair_background_color : Option String := none
  bot_discord : Option (Bool × Option Int) := none
deriving Repr, DecidableEq

/-- The fixed field set of a migrated comment row. -/
structure CommentRow where
  reddit_id : String
  author : Option String
  body : Option String
  created_utc : Int
  processed : Bool
  slash_command : Option String × Option String
deriving Repr, DecidableEq

/-- The fixed field set of a migrated submission row. -/
structure SubmissionRow where
  reddit_id : String
  title : Option String
  selftext : Option String
  author : String
  created_utc : Int
  permalink : Option String
  url : Option String
  link_flair_text : Option String
  link_flair_background_color : Option String
  bot_discord : Bool × Option Int
deriving Repr, DecidableEq

/-- A row of a migrated table: comment-shaped or submission-shaped. -/
inductive Row
  | comment (c : CommentRow)
  | submission (s : SubmissionRow)
deriving Repr, DecidableEq

def Row.isComment : Row → Bool
  | Row.comment _ => true
  | Row.submission _ => false

def Row.isSubmission : Row → Bool
  | Row.comment _ => false
  | Row.submission _ => true

/-- Python `str(x)` on the optional author of a submission:
`str(None)` yields the literal string "None". -/
def pyStr : Option String → String
  | some s => s
  | none => "None"

/-- Classification and normalization of one legacy record:
`is_comment = 'body' in record_data`, then the per-shape fixed field set
with defaults for absent optional fields. -/
def normalizeRedditRecord (recordId : String) (r : LegacyRecord) : Row :=
  if r.body.isSome then
    Row.comment
      { reddit_id := r.id.getD recordId, author := r.author, body := r.body,
        created_utc := r.created_utc.getD 0,
        processed := r.processed.getD false,
        slash_command := r.slash_command.getD (none, none) }
  else
    Row.submission
      { reddit_id := r.id.getD recordId, title := r.title,
        selftext := r.selftext, author := pyStr r.author,
        created_utc := r.created_utc.getD 0, permalink := r.permalink,
        url := r.url, link_flair_text := r.link_flair_text,
        link_flair_background_color := r.link_flair_background_color,
        bot_discord := r.bot_discord.getD (false, none) }

/-- One legacy key's table after migration: every inner record of that key
is normalized and inserted into the table NAMED AFTER THE LEGACY KEY
(`table = migration_db.table(key)`) — the shape chooses the record layout,
never the destination table. -/
def migrate_reddit_table (entries : List (String × LegacyRecord)) :
    List Row :=
  entries.map (fun e => normalizeRedditRecord e.1 e.2)

/-- Embedding of the Reddit branch of `_migrate_from_shelve` over the whole
legacy store. -/
def migrate_from_shelve_reddit
    (store : List (String × List (String × LegacyRecord))) :
    List (String × List Row) :=
  store.map (fun kv => (kv.1, migrate_reddit_table kv.2))

/-- A legacy store mixing a comment-shaped and a submission-shaped record
under the single legacy key "comments". -/
def exMixedEntries : List (String × LegacyRecord) :=
  [("a", { author := some "user1", body := some "hello" }),
   ("b", { author := some "user2", title := some "post" })]

def exMixedStore : List (String × List (String × LegacyRecord)) :=
  [("comments", exMixedEntries)]

/-- Counterexample to C8 as frozen: migrating a store that mixes both
shapes under the one legacy key "comments" produces NO `submissions` table
at all, although one submission-shaped entry exists — all rows land in the
table named by the legacy key. -/
theorem migrate_mixed_key_no_submissions_table :
    (migrate_from_shelve_reddit exMixedStore).lookup "submissions" = none ∧
    (∃ e ∈ exMixedStore, ∃ p ∈ e.2, p.2.body = none ∧ p.2.title.isSome) := by
  decide

lemma lookup_map_values {β γ : Type} (f : β → γ) (k : String) :
    ∀ store : List (String × β),
      List.lookup k (store.map (fun kv => (kv.1, f kv.2)))
        = (List.lookup k store).map f
  | [] => rfl
  | (a, b) :: rest => by
    simp only [List.map_cons, List.lookup]
    by_cases h : k = a
    · simp [h]
    · simp only [beq_eq_false_iff_ne.mpr h]
      exact lookup_map_values f k rest

lemma isComment_normalize (rid : String) (r : LegacyRecord) :
    (normalizeRedditRecord rid r).isComment = r.body.isSome := by
  unfold normalizeRedditRecord
  cases hb : r.body <;> rfl

lemma isSubmission_normalize (rid : String) (r : LegacyRecord) :
    (normalizeRedditRecord rid r).isSubmission = r.body.isNone := by
  unfold normalizeRedditRecord
  cases hb : r.body <;> rfl

/-- C8 (amended): each legacy entry becomes exactly one row, classified by
presence of `body` (comment-shaped) vs absence (submission-shaped) and
normalized to the fixed field set with defaults; every row lands in the
table named after its legacy key — mixed shapes under one key stay in that
one table, no per-shape rerouting into `comments`/`submissions` occurs. -/
theorem migrate_from_shelve_classification
    (store : List (String × List (String × LegacyRecord)))
    (k : String) (entries : List (String × LegacyRecord))
    (hk : List.lookup k store = some entries) :
    List.lookup k (migrate_from_shelve_reddit store)
      = some (migrate_reddit_table entries) ∧
    (migrate_reddit_table entries).length = entries.length ∧
    (migrate_reddit_table entries).countP Row.isComment
      = entries.countP (fun e => e.2.body.isSome) ∧
    (migrate_reddit_table entries).countP Row.isSubmission
      = entries.countP (fun e => e.2.body.isNone) ∧
    (∀ rid r, (rid, r) ∈ entries →
      (r.body.isSome = true →
        Row.comment
          { reddit_id := r.id.getD rid, author := r.author, body := r.body,
            created_utc := r.created_utc.getD 0,
            processed := r.processed.getD false,
            slash_command := r.slash_command.getD (none, none) }
          ∈ migrate_reddit_table entries) ∧
      (r.body = none →
        Row.submission
          { reddit_id := r.id.getD rid, title := r.title,
            selftext := r.selftext, author := pyStr r.author,
            created_utc := r.created_utc.getD 0, permalink := r.permalink,
            url := r.url, link_flair_text := r.link_flair_text,
            link_flair_background_color := r.link_flair_background_color,
            bot_discord := r.bot_discord.getD (false, none) }
          ∈ migrate_reddit_table entries)) := by
  refine ⟨?_, by simp [migrate_reddit_table], ?_, ?_, ?_⟩
  · rw [show migrate_from_shelve_reddit store
        = store.map (fun kv => (kv.1, migrate_reddit_table kv.2)) from rfl,
      lookup_map_values, hk]
    rfl
  · rw [migrate_reddit_table, List.countP_map]
    apply List.countP_congr
    intro e _
    simp [Function.comp, isComment_normalize]
  · rw [migrate_reddit_table, List.countP_map]
    apply List.countP_congr
    intro e _
    simp [Function.comp, isSubmission_normalize]
  · intro rid r hmem
    constructor
    · intro hb
      have hn : normalizeRedditRecord rid r = Row.comment
          { reddit_id := r.id.getD rid, author := r.author, body := r.body,
            created_utc := r.created_utc.getD 0,
            processed := r.processed.getD false,
            slash_command := r.slash_command.getD (none, none) } := by
        unfold normalizeRedditRecord
        rw [if_pos hb]
      exact hn ▸ List.mem_map_of_mem (fun e => normalizeRedditRecord e.1 e.2) hmem
    · intro hb
      have hn : normalizeRedditRecord rid r = Row.submission
          { reddit_id := r.id.getD rid, title := r.title,
            selftext := r.selftext, author := pyStr r.author,
            created_utc := r.created_utc.getD 0, permalink := r.permalink,
            url := r.url, link_flair_text := r.link_flair_text,
            link_flair_background_color := r.link_flair_background_color,
            bot_discord := r.bot_discord.getD (false, none) } := by
        unfold normalizeRedditRecord
        rw [if_neg (by rw [hb]; exact Bool.false_ne_true)]
      exact hn ▸ List.mem_map_of_mem (fun e => normalizeRedditRecord e.1 e.2) hmem

/-- Witness for C8 on the mixed store: the "comments" legacy key yields a
two-row table counting one comment-shaped and one submission-shaped row. -/
theorem migrate_from_shelve_classification_witness :
    List.lookup "comments" (migrate_from_shelve_reddit exMixedStore)
      = some (migrate_reddit_table exMixedEntries) ∧
    (migrate_reddit_table exMixedEntries).countP Row.isComment
      = exMixedEntries.countP (fun e => e.2.body.isSome) ∧
    (migrate_reddit_table exMixedEntries).countP Row.isSubmission
      = exMixedEntries.countP (fun e => e.2.body.isNone) := by
  have h := migrate_from_shelve_classification exMixedStore "comments"
    exMixedEntries (by decide)
  exact ⟨h.1, h.2.2.1, h.2.2.2.1⟩

/-! ### C9: scoped acquisition syncs on exit
(src/common/database.py Database.__enter__ / __exit__ / sync, with TinyDB's
CachingMiddleware semantics: reads load the cache lazily, writes go to the
cache counting modifications, flush writes the cache to disk only when
modifications are pending, auto-flushing every WRITE_CACHE_SIZE writes). -/

/-- CachingMiddleware's write-back threshold. -/
def WRITE_CACHE_SIZE : Nat := 1000

/-- The state of one `Database` over abstract file contents `C`: the
middleware cache (None until first read), its modified-write counter, the
on-disk JSON contents, the scoped lock, and replication state (`use_git`,
whether the working tree differs from the last commit, and how many pushes
were attempted). -/
structure Store (C : Type) where
  cache : Option C
  modifiedCount : Nat
  disk : C
  locked : Bool
  use_git : Bool
  dirtyRepo : Bool
  pushAttempts : Nat

/-- The content in-memory operations observe: the cache once loaded,
otherwise the disk file. -/
def Store.content (s : Store C) : C := s.cache.getD s.disk

/-- CachingMiddleware.flush: write the cache to disk only when writes are
pending; a disk write leaves the working tree dirty for git. -/
def Store.flush (s : Store C) : Store C :=
  if s.modifiedCount > 0 then
    match s.cache with
    | some c => { s with disk := c, modifiedCount := 0, dirtyRepo := true }
    | none => s
  else s

/-- The git block of `Database.sync`: when replication is enabled and
`git status --porcelain` reports changes, stage all json files, commit,
and attempt a push. -/
def Store.gitOps (s : Store C) : Store C :=
  if s.use_git && s.dirtyRepo then
    { s with dirtyRepo := false, pushAttempts := s.pushAttempts + 1 }
  else s

/-- Embedding of `Database.sync`: flush the caching storage, then run the
git block. -/
def Store.sync (s : Store C) : Store C := s.flush.gitOps

/-- `Database.__enter__`: acquire the lock and hand out the TinyDB. -/
def Store.enter (s : Store C) : Store C := { s with locked := true }

/-- `Database.__exit__`: `self.sync()` first, then release the lock. -/
def Store.exitScope (s : Store C) : Store C := { s.sync with locked := false }

/-- The TinyDB operations a scope body performs through the caching
storage. -/
inductive StoreOp (C : Type)
  | read
  | write (c : C)

def Store.applyOp (s : Store C) : StoreOp C → Store C
  | StoreOp.read =>
    match s.cache with
    | none => { s with cache := some s.disk }
    | some _ => s
  | StoreOp.write c =>
    let s' := { s with cache := some c, modifiedCount := s.modifiedCount + 1 }
    if WRITE_CACHE_SIZE ≤ s'.modifiedCount then s'.flush else s'

def Store.runOps (s : Store C) (ops : List (StoreOp C)) : Store C :=
  ops.foldl Store.applyOp s

/-- One scoped acquisition: `with self as db: <ops>`. -/
def Store.withScope (s : Store C) (ops : List (StoreOp C)) : Store C :=
  ((s.enter).runOps ops).exitScope

/-- Store invariant: with no pending writes the loaded cache agrees with
the disk, and pending writes imply a loaded cache.  A freshly opened store
(cache = none, modifiedCount = 0) satisfies it. -/
def StoreInv (s : Store C) : Prop :=
  (s.modifiedCount = 0 → ∀ c, s.cache = some c → c = s.disk) ∧
  (s.modifiedCount ≠ 0 → s.cache.isSome = true)

lemma flush_spec {s : Store C} (h : StoreInv s) :
    (s.flush).disk = (s.flush).content ∧ (s.flush).modifiedCount = 0 ∧
      StoreInv s.flush ∧ (s.flush).use_git = s.use_git ∧
      (s.flush).locked = s.locked ∧ (s.flush).cache = s.cache := by
  by_cases hm : s.modifiedCount > 0
  · cases hc : s.cache with
    | none =>
      have hs := h.2 (by omega)
      rw [hc] at hs
      simp at hs
    | some c =>
      have hf : s.flush
          = { s with disk := c, modifiedCount := 0, dirtyRepo := true } := by
        unfold Store.flush
        rw [if_pos hm, hc]
      rw [hf]
      refine ⟨?_, rfl, ⟨fun h0 c' hc' => ?_, fun hne => absurd rfl hne⟩,
        rfl, rfl, hc⟩
      · show c = Store.content _
        unfold Store.content
        show c = s.cache.getD c
        rw [hc]
        rfl
      · have hcc : s.cache = some c' := hc'
        rw [hc] at hcc
        exact (Option.some_inj.mp hcc).symm
  · have hm0 : s.modifiedCount = 0 := by omega
    have hf : s.flush = s := by
      unfold Store.flush
      rw [if_neg hm]
    rw [hf]
    refine ⟨?_, hm0, h, rfl, rfl, rfl⟩
    unfold Store.content
    cases hc : s.cache with
    | none => rfl
    | some c =>
      rw [Option.getD_some]
      exact (h.1 hm0 c hc).symm

lemma gitOps_fields (s : Store C) :
    (s.gitOps).disk = s.disk ∧ (s.gitOps).cache = s.cache ∧
      (s.gitOps).modifiedCount = s.modifiedCount ∧
      (s.gitOps).use_git = s.use_git ∧ (s.gitOps).locked = s.locked ∧
      (s.use_git = true → (s.gitOps).dirtyRepo = false) := by
  unfold Store.gitOps
  by_cases hg : s.use_git && s.dirtyRepo
  · rw [if_pos hg]
    exact ⟨rfl, rfl, rfl, rfl, rfl, fun _ => rfl⟩
  · rw [if_neg hg]
    refine ⟨rfl, rfl, rfl, rfl, rfl, fun hu => ?_⟩
    rw [hu] at hg
    simpa using hg

lemma storeInv_applyOp {s : Store C} (h : StoreInv s) (op : StoreOp C) :
    StoreInv (s.applyOp op) ∧ (s.applyOp op).use_git = s.use_git ∧
      (s.applyOp op).locked = s.locked := by
  cases op with
  | read =>
    cases hc : s.cache with
    | none =>
      have ha : s.applyOp StoreOp.read = { s with cache := some s.disk } := by
        unfold Store.applyOp
        rw [hc]
      rw [ha]
      refine ⟨⟨fun _ c hc' => ?_, fun _ => rfl⟩, rfl, rfl⟩
      exact (Option.some_inj.mp hc').symm
    | some c0 =>
      have ha : s.applyOp StoreOp.read = s := by
        unfold Store.applyOp
        rw [hc]
      rw [ha]
      exact ⟨h, rfl, rfl⟩
  | write c =>
    by_cases hm : WRITE_CACHE_SIZE ≤ s.modifiedCount + 1
    · have hinv' : StoreInv ({ s with cache := some c, modifiedCount := s.modifiedCount + 1 } : Store C) :=
        ⟨fun h0 => absurd h0 (Nat.succ_ne_zero _), fun _ => rfl⟩
      have hf := flush_spec hinv'
      have ha : s.applyOp (StoreOp.write c)
          = ({ s with cache := some c, modifiedCount := s.modifiedCount + 1 } : Store C).flush := by
        show (if WRITE_CACHE_SIZE ≤ s.modifiedCount + 1 then ({ s with cache := some c, modifiedCount := s.modifiedCount + 1 } : Store C).flush else { s with cache := some c, modifiedCount := s.modifiedCount + 1 }) = _
        rw [if_pos hm]
      rw [ha]
      exact ⟨hf.2.2.1, hf.2.2.2.1, hf.2.2.2.2.1⟩
    · have ha : s.applyOp (StoreOp.write c)
          = ({ s with cache := some c, modifiedCount := s.modifiedCount + 1 } : Store C) := by
        show (if WRITE_CACHE_SIZE ≤ s.modifiedCount + 1 then ({ s with cache := some c, modifiedCount := s.modifiedCount + 1 } : Store C).flush else { s with cache := some c, modifiedCount := s.modifiedCount + 1 }) = _
        rw [if_neg hm]
      rw [ha]
      exact ⟨⟨fun h0 => absurd h0 (Nat.succ_ne_zero _), fun _ => rfl⟩, rfl, rfl⟩

lemma storeInv_runOps {s : Store C} (h : StoreInv s) :
    ∀ ops : List (StoreOp C), StoreInv (s.runOps ops) ∧
      (s.runOps ops).use_git = s.use_git ∧ (s.runOps ops).locked = s.locked
  | [] => ⟨h, rfl, rfl⟩
  | op :: ops => by
    have h1 := storeInv_applyOp h op
    have h2 := storeInv_runOps (s := s.applyOp op) h1.1 ops
    show StoreInv ((s.applyOp op).runOps ops) ∧ _ ∧ _
    exact ⟨h2.1, h2.2.1.trans h1.2.1, h2.2.2.trans h1.2.2⟩

/-- C9: every scoped acquisition runs `sync()` on scope exit before
releasing the lock (definitional in `exitScope`), so after any sequence of
reads and writes inside the scope — including pure reads — the lock is
released, the on-disk contents equal the in-memory contents, the store
invariant is re-established for the next scope, and with replication
enabled the working tree has been committed and a push attempted (no dirty
tree survives scope exit). -/
theorem withScope_sync_spec {C : Type} (s : Store C) (ops : List (StoreOp C))
    (hinv : StoreInv s) :
    s.withScope ops = { ((s.enter.runOps ops).sync) with locked := false } ∧
    (s.withScope ops).locked = false ∧
    (s.withScope ops).disk = (s.withScope ops).content ∧
    StoreInv (s.withScope ops) ∧
    (s.use_git = true → (s.withScope ops).dirtyRepo = false) := by
  have henter : StoreInv (s.enter) ∧ (s.enter).use_git = s.use_git :=
    ⟨hinv, rfl⟩
  have hrun := storeInv_runOps (s := s.enter) henter.1 ops
  set t := s.enter.runOps ops with ht
  have hf := flush_spec hrun.1
  have hg := gitOps_fields (t.flush)
  refine ⟨rfl, rfl, ?_, ?_, ?_⟩
  · show (t.flush.gitOps).disk = (t.flush.gitOps).content
    unfold Store.content
    rw [hg.1, hg.2.1]
    exact hf.1
  · show StoreInv (t.flush.gitOps)
    constructor
    · intro h0 c hc
      rw [hg.2.1] at hc
      rw [hg.1]
      exact hf.2.2.1.1 (by rw [← hg.2.2.1]; exact h0) c hc
    · intro hne
      rw [hg.2.1]
      exact hf.2.2.1.2 (by rw [← hg.2.2.1]; exact hne)
  · intro hu
    show (t.flush.gitOps).dirtyRepo = false
    apply hg.2.2.2.2.2
    rw [hf.2.2.2.1, hrun.2.1]
    exact hu

/-- Witness for C9: a concrete scope over Nat contents performing a write
then a read ends unlocked with disk equal to memory. -/
theorem withScope_sync_spec_witness :
    ((⟨none, 0, 7, false, true, false, 0⟩ : Store Nat).withScope
        [StoreOp.write 42, StoreOp.read]).locked = false ∧
    ((⟨none, 0, 7, false, true, false, 0⟩ : Store Nat).withScope
        [StoreOp.write 42, StoreOp.read]).disk
      = ((⟨none, 0, 7, false, true, false, 0⟩ : Store Nat).withScope
        [StoreOp.write 42, StoreOp.read]).content := by
  have h := withScope_sync_spec (⟨none, 0, 7, false, true, false, 0⟩ : Store Nat)
    [StoreOp.write 42, StoreOp.read]
    ⟨fun _ c hc => by simp at hc, fun hne => absurd rfl hne⟩
  exact ⟨h.2.1, h.2.2.1⟩

/-! ### C6: the durable-replication toggle of the migrations
(src/common/rank.py reads and writes `database.GIT_ENABLED`;
src/common/database.py never defines that module attribute, and
`Database.sync` consults only `self.use_git`). -/

/-- The module attribute `GIT_ENABLED` of src/common/database.py exactly
as the module defines it: absent (no assignment anywhere in the module;
the only writers are the migration bodies in rank.py, which first read
it). -/
def databaseModuleGitEnabled : Option Bool := none

/-- Reading `database.GIT_ENABLED` — the first statement of both
`_do_reddit_migration` and `_do_mee6_migration`
(`original_git_enabled = database.GIT_ENABLED`).  Python raises
AttributeError when a module attribute is absent. -/
def readGitEnabled : Option Bool → Except String Bool
  | some b => Except.ok b
  | none => Except.error "AttributeError: module src.common.database has no attribute GIT_ENABLED"

/-- Whether `Database.sync` runs its commit-and-push block: the source
checks `self.use_git and self.repo is not None`; the module-level
`GIT_ENABLED` flag is not consulted anywhere in `sync`. -/
def sync_runs_git_block (use_git repoPresent : Bool)
    (gitEnabled : Option Bool) : Bool :=
  use_git && repoPresent

/-- C6 (code evaluated at the failing input): the first read of
`database.GIT_ENABLED` in a fresh process raises AttributeError because
database.py never defines the attribute; and even were the attribute set,
`Database.sync`'s replication decision is independent of it — with the
flag set to False a replication-configured sync still commits and pushes,
so intermediate migration syncs are not kept local. -/
theorem migration_git_toggle_ineffective :
    readGitEnabled databaseModuleGitEnabled
      = Except.error "AttributeError: module src.common.database has no attribute GIT_ENABLED" ∧
    (∀ u r g, sync_runs_git_block u r g = sync_runs_git_block u r (some false)) ∧
    sync_runs_git_block true true (some false) = true :=
  ⟨rfl, fun _ _ _ => rfl, rfl⟩

end SupportBot
